import Mathlib

/-!
Shallow embedding of `metadata.py` (video metadata generator).

The Python program scans a blob container, classifies each video file into a
difficulty category from its file name, synthesizes a metadata record, and
writes it back under `metadata/<cleanName>.json`.

Modelling conventions, noted once here:
* Python strings are Lean `String`; per-character operations are expressed on
  `String.data` (lists of characters).  Python `str.lower` / `str.upper` /
  `str.capitalize` are modelled per character with `Char.toLower` /
  `Char.toUpper` (ASCII; none of the fixed keywords or literals in the source
  are non-ASCII).
* `pathlib.PurePosixPath` semantics: components are the slash-separated
  segments with empty segments and "." dropped; `name` is the last such
  component; `suffix` / `stem` use the pathlib rule (the last dot of the name,
  provided it is neither the first nor past the last character).
* The blob store is a list of `Blob` entries; `upload_blob(..., overwrite=True)`
  replaces the entry with the same name in place, or appends a new one.  The
  byte size of a written JSON document is abstracted as 0 (no claim inspects
  it), and its payload is the structured `Metadata` record instead of JSON text.
* `list(set(...))` (Python set round-trip, unspecified order) is modelled as
  first-occurrence deduplication (`List.eraseDups`); no claim depends on the
  order of `topics` / `tags`.
* Storage faults are modelled by feeding the two listing calls an
  `Except String (List Blob)` value: `.error e` is the SDK call raising, `.ok`
  is a successful listing.  Writes always succeed in the model (no claim is
  about write failures).
-/

/-- Characters of a lowercased Python string (`str.lower`, ASCII). -/
def pyLowerC (l : List Char) : List Char := l.map Char.toLower

/-- Python `str.lower`. -/
def pyLower (s : String) : String := ⟨pyLowerC s.data⟩

/-- Boolean prefix test on character lists (`str.startswith`). -/
def isPre : List Char → List Char → Bool
  | [], _ => true
  | _ :: _, [] => false
  | c :: cs, d :: ds => c == d && isPre cs ds

/-- Python `str.startswith`. -/
def pyStartsWith (s p : String) : Bool := isPre p.data s.data

/-- Python `str.endswith`, via reversed prefix test. -/
def pyEndsWith (s p : String) : Bool := isPre p.data.reverse s.data.reverse

/-- Boolean substring test (Python `needle in haystack`). -/
def containsSub (needle : List Char) : List Char → Bool
  | [] => isPre needle []
  | c :: rest => isPre needle (c :: rest) || containsSub needle rest

/-- Split a character list at every slash (`str.split("/")`): first group and
remaining groups, so the result is non-empty by construction. -/
def splitSlashP : List Char → List Char × List (List Char)
  | [] => ([], [])
  | c :: rest =>
    let r := splitSlashP rest
    if c = '/' then ([], r.1 :: r.2) else (c :: r.1, r.2)

/-- All slash-separated groups (Python `str.split("/")`). -/
def splitSlash (l : List Char) : List (List Char) :=
  (splitSlashP l).1 :: (splitSlashP l).2

/-- Path components in the pathlib sense: slash-separated groups with empty
groups and "." dropped. -/
def pathComponentsC (l : List Char) : List (List Char) :=
  (splitSlash l).filter (fun c => ¬(c = [] ∨ c = ['.']))

/-- Characters of `PurePosixPath(p).name`: the last component, or empty. -/
def pathNameC (l : List Char) : List Char := (pathComponentsC l).getLastD []

/-- Index of the last dot of a character list, if any. -/
def lastDotPos : List Char → Option Nat
  | [] => none
  | c :: rest =>
    match lastDotPos rest with
    | some i => some (i + 1)
    | none => if c = '.' then some 0 else none

/-- Stem of a final path component under the pathlib rule: drop the suffix when
the last dot is neither first nor past-the-end, else keep the name whole. -/
def stemName (n : List Char) : List Char :=
  match lastDotPos n with
  | some i => if 0 < i ∧ i + 1 < n.length then n.take i else n
  | none => n

/-- Suffix (extension) of a final path component under the pathlib rule. -/
def suffixName (n : List Char) : List Char :=
  match lastDotPos n with
  | some i => if 0 < i ∧ i + 1 < n.length then n.drop i else []
  | none => []

/-- Python `Path(s).name`. -/
def pathName (s : String) : String := ⟨pathNameC s.data⟩

/-- Python `Path(s).stem`. -/
def pathStem (s : String) : String := ⟨stemName (pathNameC s.data)⟩

/-- Python `Path(s).suffix`. -/
def pathSuffix (s : String) : String := ⟨suffixName (pathNameC s.data)⟩

/-- The three difficulty categories, in the order the source iterates them. -/
def categories : List String := ["beginner", "intermediate", "advanced"]

/-- Keywords whose presence marks a beginner video (source line 88). -/
def beginner_words : List String :=
  ["beginner", "basic", "intro", "fundamentals", "101", "start"]

/-- Keywords whose presence marks an advanced video (source line 90). -/
def advanced_words : List String :=
  ["advanced", "expert", "master", "professional", "deep"]

/-- Keywords whose presence marks an intermediate video (source line 92). -/
def intermediate_words : List String :=
  ["intermediate", "medium", "standard", "level2"]

/-- Does the lowercased name contain any keyword of the list? -/
def anyKeyword (words : List String) (fl : List Char) : Bool :=
  words.any (fun w => containsSub w.data fl)

/-- Embedding of `MetadataGenerator.detect_category_from_filename`
(source lines 84-95): note the source checks the beginner keyword list first,
then advanced, then intermediate, defaulting to beginner. -/
def detect_category_from_filename (filename : String) : String :=
  let filename_lower := pyLowerC filename.data
  if anyKeyword beginner_words filename_lower then "beginner"
  else if anyKeyword advanced_words filename_lower then "advanced"
  else if anyKeyword intermediate_words filename_lower then "intermediate"
  else "beginner"

/-- Embedding of `MetadataGenerator.parse_video_info` (source lines 61-82):
folder rule, then category-word-dash rule in list order, then keyword
detection. -/
def parse_video_info (blob_name : String) : String × String :=
  let file_name := pathStem blob_name
  let parts := splitSlash blob_name.data
  if '/' ∈ blob_name.data ∧ 2 ≤ parts.length ∧ pyLower ⟨parts.headD []⟩ ∈ categories then
    (pyLower ⟨parts.headD []⟩, pathStem ⟨parts.getLastD []⟩)
  else
    match categories.find? (fun cat => isPre (cat ++ "-").data (pyLowerC file_name.data)) with
    | some cat => (cat, ⟨file_name.data.drop (cat.length + 1)⟩)
    | none => (detect_category_from_filename file_name, file_name)


/-- Characters considered separators by the cleanup regexes (`[-_]`). -/
def isSepC (c : Char) : Bool := c = '-' ∨ c = '_'

/-- Embedding of the regex `^(beginner|intermediate|advanced)[-_]?` substitution
with `re.IGNORECASE` (source line 138): remove a leading category word and at
most one following separator.  The alternatives are mutually exclusive, so the
list order only mirrors the pattern. -/
def stripCategoryWord (s : List Char) : List Char :=
  match categories.find? (fun cat => isPre cat.data (pyLowerC s)) with
  | some cat =>
    match s.drop cat.length with
    | c :: tl => if isSepC c then tl else c :: tl
    | [] => []
  | none => s

/-- Embedding of the regex `[-_]+ -> " "` substitution (source line 139),
single pass with a flag recording whether the previous character was part of a
separator run. -/
def collapseSepsAux : Bool → List Char → List Char
  | _, [] => []
  | prevSep, c :: rest =>
    if isSepC c then
      if prevSep then collapseSepsAux true rest
      else ' ' :: collapseSepsAux true rest
    else c :: collapseSepsAux false rest

/-- Replace each run of separators by a single space. -/
def collapseSeps (s : List Char) : List Char := collapseSepsAux false s

/-- Embedding of the regex `\d+ -> ""` substitution (source line 140): remove
every digit character. -/
def removeDigits (s : List Char) : List Char := s.filter (fun c => ¬ c.isDigit)

/-- Python `str.split()` (split on whitespace runs, no empty words), with an
accumulator for the word being read. -/
def pyWordsAux : List Char → List Char → List (List Char)
  | [], acc => if acc = [] then [] else [acc.reverse]
  | c :: rest, acc =>
    if c.isWhitespace then
      if acc = [] then pyWordsAux rest []
      else acc.reverse :: pyWordsAux rest []
    else pyWordsAux rest (c :: acc)

/-- Python `str.split()` on characters. -/
def pyWords (s : List Char) : List (List Char) := pyWordsAux s []

/-- Python `str.split()` producing strings. -/
def pyWordsS (s : String) : List String := (pyWords s.data).map (fun w => (⟨w⟩ : String))

/-- Python `str.capitalize` on characters: upper the first character, lower the
rest. -/
def capitalizeC : List Char → List Char
  | [] => []
  | c :: rest => c.toUpper :: rest.map Char.toLower

/-- Python `str.capitalize`. -/
def py_capitalize (s : String) : String := ⟨capitalizeC s.data⟩

/-- Python `" ".join(words)` on character lists. -/
def joinWords : List (List Char) → List Char
  | [] => []
  | [w] => w
  | w :: ws => w ++ ' ' :: joinWords ws

/-- Embedding of `MetadataGenerator.clean_filename_for_title`
(source lines 135-145). -/
def clean_filename_for_title (filename : String) : String :=
  let t1 := stripCategoryWord filename.data
  let t2 := collapseSeps t1
  let t3 := removeDigits t2
  let t4 := joinWords ((pyWords t3).map capitalizeC)
  if t4 = [] then "Training Video" else ⟨t4⟩

/-- Embedding of `MetadataGenerator.estimate_duration` (source lines 147-151):
`max(300, min(7200, file_size // (1024 * 1024) * 8))`. -/
def estimate_duration (file_size : Nat) : Nat :=
  max 300 (min 7200 (file_size / (1024 * 1024) * 8))

/-- Python single-character `str.replace`. -/
def pyReplaceChar (s : String) (a b : Char) : String :=
  ⟨s.data.map (fun c => if c = a then b else c)⟩

/-- Embedding of `MetadataGenerator.generate_topics_from_title`
(source lines 153-157); `list(set(...))` modelled as first-occurrence
deduplication. -/
def generate_topics_from_title (title : String) : List String :=
  let words := ((pyWordsS title).filter (fun w => 3 < w.length)).map pyLower
  (["training", "tutorial"] ++ words.take 3).eraseDups

/-- Embedding of `MetadataGenerator.generate_learning_objectives`
(source lines 159-178); `objectives_map.get(category, objectives_map["beginner"])`. -/
def generate_learning_objectives (title category : String) : List String :=
  let beg := ["Understand the fundamentals of " ++ pyLower title,
    "Apply basic concepts in practical scenarios",
    "Identify key principles and best practices"]
  let inter := ["Master intermediate techniques in " ++ pyLower title,
    "Analyze complex scenarios and develop solutions",
    "Integrate concepts with existing knowledge"]
  let adv := ["Achieve expert-level proficiency in " ++ pyLower title,
    "Develop innovative approaches and strategies",
    "Lead implementation and mentor others"]
  if category = "beginner" then beg
  else if category = "intermediate" then inter
  else if category = "advanced" then adv
  else beg

/-- Embedding of `MetadataGenerator.generate_prerequisites`
(source lines 180-187); `prereq_map.get(category, [])`. -/
def generate_prerequisites (category : String) : List String :=
  if category = "beginner" then []
  else if category = "intermediate" then
    ["Basic understanding of core concepts", "Completion of beginner-level training"]
  else if category = "advanced" then
    ["Intermediate certification", "Practical experience", "Strong foundational knowledge"]
  else []

/-- Embedding of `MetadataGenerator.generate_tags` (source lines 189-193). -/
def generate_tags (title category : String) : List String :=
  let base_tags := ["training", "tutorial", category]
  let title_words := ((pyWordsS title).filter (fun w => 3 < w.length)).map pyLower
  (base_tags ++ title_words.take 3).eraseDups

/-- One chapter entry of the synthesized metadata. -/
structure Chapter where
  title : String
  start_time : Nat
  end_time : Nat
  description : String
deriving Repr, DecidableEq

/-- Embedding of `MetadataGenerator.generate_chapters` (source lines 195-217):
an if/elif/else chain whose final `else` is the advanced table. -/
def generate_chapters (title category : String) : List Chapter :=
  if category = "beginner" then
    [⟨"Course Introduction", 0, 180, "Welcome and overview of " ++ title⟩,
     ⟨"Basic Concepts", 180, 900, "Fundamental principles and concepts"⟩,
     ⟨"Practical Examples", 900, 1200, "Step-by-step examples and demonstrations"⟩,
     ⟨"Practice & Summary", 1200, 1500, "Practice exercises and key takeaways"⟩]
  else if category = "intermediate" then
    [⟨"Review & Setup", 0, 300, "Prerequisites review and setup"⟩,
     ⟨"Advanced Concepts", 300, 1000, "Intermediate-level concepts and techniques"⟩,
     ⟨"Case Studies", 1000, 1400, "Real-world applications and case studies"⟩,
     ⟨"Best Practices", 1400, 1800, "Industry best practices and next steps"⟩]
  else
    [⟨"Expert Overview", 0, 240, "Advanced concepts overview"⟩,
     ⟨"Deep Dive Analysis", 240, 1080, "In-depth technical analysis"⟩,
     ⟨"Advanced Techniques", 1080, 1560, "Expert-level techniques and strategies"⟩,
     ⟨"Innovation & Leadership", 1560, 1800, "Innovation approaches and leadership aspects"⟩]


/-- Hex digit character (uppercase) for percent-encoding. -/
def hexDigit (n : Nat) : Char :=
  if n < 10 then Char.ofNat (48 + n) else Char.ofNat (55 + n)

/-- UTF-8 bytes of a character, as naturals. -/
def utf8Bytes (c : Char) : List Nat :=
  let n := c.toNat
  if n < 128 then [n]
  else if n < 2048 then [192 + n / 64, 128 + n % 64]
  else if n < 65536 then [224 + n / 4096, 128 + (n / 64) % 64, 128 + n % 64]
  else [240 + n / 262144, 128 + (n / 4096) % 64, 128 + (n / 64) % 64, 128 + n % 64]

/-- Characters a `urllib.parse.quote` call with the default `safe="/"` leaves
unescaped: ASCII alphanumerics, `_.-~`, and the slash. -/
def isUrlSafe (c : Char) : Bool :=
  c.isAlphanum || c = '_' || c = '.' || c = '-' || c = '~' || c = '/'

/-- Embedding of `urllib.parse.quote` (default safe characters). -/
def pyQuote (s : String) : String :=
  ⟨s.data.flatMap (fun c =>
    if isUrlSafe c then [c]
    else (utf8Bytes c).flatMap (fun b => ['%', hexDigit (b / 16), hexDigit (b % 16)]))⟩

/-- Connection parameters of `MetadataGenerator` (account from the connection
string, container from the constructor argument). -/
structure Gen where
  account : String
  container : String
deriving Repr, DecidableEq

/-- A synthesized metadata record (the JSON document of source lines 109-127,
with the structured payload in place of serialized text). -/
structure Metadata where
  video_id : String
  title : String
  description : String
  category : String
  duration_seconds : Nat
  thumbnail_url : String
  video_url : String
  transcript : String
  topics : List String
  learning_objectives : List String
  prerequisites : List String
  difficulty_level : String
  instructor : String
  created_date : String
  updated_date : String
  tags : List String
  chapters : List Chapter
deriving Repr, DecidableEq

/-- One blob of the container: name, size, and the payload when the blob was
written by this tool (pre-existing blobs carry `none`). -/
structure Blob where
  name : String
  size : Nat
  content : Option Metadata
deriving Repr, DecidableEq

/-- The `video_info` dict built at source lines 44-51. -/
structure Video where
  blob_name : String
  file_name : String
  clean_name : String
  category : String
  size : Nat
  url : String
deriving Repr, DecidableEq

/-- Video extensions accepted by the inventory (source line 26). -/
def video_extensions : List String :=
  [".mp4", ".avi", ".mov", ".wmv", ".mkv", ".flv", ".webm"]

/-- Public URL of a blob (source line 50). -/
def blob_url (g : Gen) (name : String) : String :=
  "https://" ++ g.account ++ ".blob.core.windows.net/" ++ g.container ++ "/" ++ pyQuote name

/-- The `video_info` record built for one accepted blob (source lines 42-51). -/
def mkVideoInfo (g : Gen) (b : Blob) : Video :=
  { blob_name := b.name
    file_name := pathName b.name
    clean_name := (parse_video_info b.name).2
    category := (parse_video_info b.name).1
    size := b.size
    url := blob_url g b.name }

/-- The filtering loop of `list_existing_videos` (source lines 33-52): skip the
`metadata/` namespace, keep names whose lowercased pathlib suffix is a video
extension. -/
def inventory (g : Gen) : List Blob → List Video
  | [] => []
  | b :: rest =>
    if pyStartsWith b.name "metadata/" then inventory g rest
    else if pyLower (pathSuffix b.name) ∈ video_extensions then
      mkVideoInfo g b :: inventory g rest
    else inventory g rest

/-- Embedding of `MetadataGenerator.list_existing_videos` (source lines 24-59):
a failed listing call is caught and yields the empty list. -/
def list_existing_videos (g : Gen) : Except String (List Blob) → List Video
  | .error _ => []
  | .ok blobs => inventory g blobs

/-- Embedding of `MetadataGenerator.create_metadata` (source lines 97-133) with
`custom_data = None`; the `custom_data` dict-update branch is not exercised by
any claim and is omitted. -/
def create_metadata (v : Video) : Metadata :=
  let title := clean_filename_for_title v.clean_name
  let video_id :=
    v.category ++ "-" ++ pyReplaceChar (pyReplaceChar (pyLower v.clean_name) ' ' '-') '_' '-'
  { video_id := video_id
    title := title
    description := "Training video: " ++ title ++ " - " ++ py_capitalize v.category ++
      " level content for comprehensive learning"
    category := v.category
    duration_seconds := estimate_duration v.size
    thumbnail_url := ""
    video_url := v.url
    transcript := "Training content covering " ++ pyLower title ++ ". This " ++ v.category ++
      "-level course provides comprehensive instruction on the topic."
    topics := generate_topics_from_title title
    learning_objectives := generate_learning_objectives title v.category
    prerequisites := generate_prerequisites v.category
    difficulty_level := v.category
    instructor := "Training Expert"
    created_date := "2024-10-21T00:00:00Z"
    updated_date := "2024-10-21T00:00:00Z"
    tags := generate_tags title v.category
    chapters := generate_chapters title v.category }

/-- Effect of `upload_metadata` / `blob_client.upload_blob(..., overwrite=True)`
(source lines 219-233) on the store: replace the equally named blob in place,
or append a fresh one. -/
def upload_blob (store : List Blob) (blob_path : String) (md : Metadata) : List Blob :=
  if ∃ b ∈ store, b.name = blob_path then
    store.map (fun b => if b.name = blob_path then ⟨blob_path, 0, some md⟩ else b)
  else store ++ [⟨blob_path, 0, some md⟩]

/-- The set of already-produced metadata base names (source lines 246-254): on
a listing failure the bare `except: pass` leaves the set empty; on success,
the pathlib stems of the `.json` blobs of the listing. -/
def existing_metadata : Except String (List Blob) → List String
  | .error _ => []
  | .ok blobs => (blobs.filter (fun b => pyEndsWith b.name ".json")).map (fun b => pathStem b.name)

/-- Outcome of a batch run: final store and the three printed counters. -/
structure RunResult where
  store : List Blob
  generated : Nat
  skipped : Nat
  total : Nat
deriving Repr, DecidableEq

/-- The per-video loop of `generate_all_metadata` (source lines 259-274): skip
when the clean name is known and overwrite is not forced, else synthesize and
publish under `metadata/<clean_name>.json`. -/
def batch_loop (existing : List String) (force : Bool) (acc : RunResult) :
    List Video → RunResult
  | [] => acc
  | v :: rest =>
    if v.clean_name ∈ existing ∧ force = false then
      batch_loop existing force { acc with skipped := acc.skipped + 1 } rest
    else
      batch_loop existing force
        { acc with
          store := upload_blob acc.store ("metadata/" ++ v.clean_name ++ ".json") (create_metadata v)
          generated := acc.generated + 1 } rest

/-- Embedding of `MetadataGenerator.generate_all_metadata` (source lines
235-279), with the outcomes of the two listing calls passed explicitly. -/
def generate_all_metadata (g : Gen) (store : List Blob)
    (videoListing metaListing : Except String (List Blob)) (force : Bool) : RunResult :=
  let videos := list_existing_videos g videoListing
  if videos = [] then ⟨store, 0, 0, 0⟩
  else batch_loop (existing_metadata metaListing) force ⟨store, 0, 0, videos.length⟩ videos

/-- A full-batch run against a live store where both listing calls succeed:
the video listing returns the whole container, the metadata listing returns
the blobs under the `metadata/` prefix. -/
def run_batch (g : Gen) (store : List Blob) (force : Bool) : RunResult :=
  generate_all_metadata g store (.ok store)
    (.ok (store.filter (fun b => pyStartsWith b.name "metadata/"))) force


/-- Ranked keyword rules in the amended order (the order the source actually
applies): beginner first, then advanced, then intermediate. -/
def keyword_rules : List (List String × String) :=
  [(beginner_words, "beginner"), (advanced_words, "advanced"), (intermediate_words, "intermediate")]

/-- Keyword detection phrased as a first-match scan over the ranked rule list;
the default is beginner. -/
def detect_by_rules (filename : String) : String :=
  match keyword_rules.find? (fun r => anyKeyword r.1 (pyLowerC filename.data)) with
  | some r => r.2
  | none => "beginner"

/-- Remove one leading separator, if present (used after a category word). -/
def dropOneSep : List Char → List Char
  | [] => []
  | c :: tl => if isSepC c then tl else c :: tl

/-- Modelled from the spec wording of `titleFromName`: strip a leading
category-word prefix with an optional following separator, written as an
explicit three-way case split. -/
def stripCategoryWordSpec (s : List Char) : List Char :=
  let ls := pyLowerC s
  if isPre "beginner".data ls then dropOneSep (s.drop 8)
  else if isPre "intermediate".data ls then dropOneSep (s.drop 12)
  else if isPre "advanced".data ls then dropOneSep (s.drop 8)
  else s

/-- Replace each maximal run of separators by one space, written by jumping
over the whole run at once. -/
def replaceSepRuns : List Char → List Char
  | [] => []
  | c :: rest =>
    if isSepC c then ' ' :: replaceSepRuns (rest.dropWhile isSepC)
    else c :: replaceSepRuns rest
termination_by l => l.length
decreasing_by
  all_goals simp_wf
  all_goals
    have := (List.dropWhile_sublist (l := rest) isSepC).length_le
    omega

/-- Modelled from the spec wording of `titleFromName` (spec section 4.2):
strip a leading category word, replace separator runs by single spaces, delete
digits, capitalize the whitespace-delimited tokens, fall back to the literal
"Training Video" when nothing remains. -/
def titleFromName_spec (s : String) : String :=
  let cleaned :=
    joinWords ((pyWords (removeDigits (replaceSepRuns (stripCategoryWordSpec s.data)))).map capitalizeC)
  if cleaned = [] then "Training Video" else ⟨cleaned⟩


/-! Helper lemmas. -/

lemma string_data_append (a b : String) : (a ++ b).data = a.data ++ b.data := by
  cases a
  cases b
  rfl

lemma collapseSepsAux_eq_replaceSepRuns (s : List Char) :
    collapseSepsAux false s = replaceSepRuns s ∧
    collapseSepsAux true s = replaceSepRuns (s.dropWhile isSepC) := by
  induction s with
  | nil => simp [collapseSepsAux, replaceSepRuns]
  | cons c rest ih =>
    cases hc : isSepC c
    · simp [collapseSepsAux, replaceSepRuns, hc, List.dropWhile_cons, ih.1]
    · simp [collapseSepsAux, replaceSepRuns, hc, List.dropWhile_cons, ih.1, ih.2]

lemma stripCategoryWord_eq_spec (s : List Char) :
    stripCategoryWord s = stripCategoryWordSpec s := by
  unfold stripCategoryWord stripCategoryWordSpec
  cases h1 : isPre "beginner".data (pyLowerC s) <;>
    cases h2 : isPre "intermediate".data (pyLowerC s) <;>
      cases h3 : isPre "advanced".data (pyLowerC s) <;>
        simp only [categories, List.find?, h1, h2, h3, Bool.false_eq_true, if_false, if_true,
          Bool.true_eq_false, ite_true, ite_false, show "beginner".length = 8 from rfl,
          show "intermediate".length = 12 from rfl, show "advanced".length = 8 from rfl] <;>
          cases hd : s.drop 8 <;> cases hd12 : s.drop 12 <;> simp [dropOneSep, hd, hd12]

/-! Claim theorems: C1, C3, C5, C8, C9. -/

/-- C1 (counterexample): the name "basic-deep" contains the beginner keyword
"basic" and the advanced keyword "deep", yet keyword detection returns
"beginner", not "advanced" as the claim states. -/
theorem detect_keyword_order_cex :
    containsSub "basic".data (pyLowerC "basic-deep".data) = true ∧
    containsSub "deep".data (pyLowerC "basic-deep".data) = true ∧
    detect_category_from_filename "basic-deep" = "beginner" ∧
    detect_category_from_filename "basic-deep" ≠ "advanced" := by
  refine ⟨by decide, by decide, by decide, by decide⟩

/-- C1 (amended): keyword detection scans the ranked rule list in the order
beginner, advanced, intermediate (default beginner); in particular any name
containing a beginner keyword — even together with an advanced keyword —
resolves to "beginner". -/
theorem detect_keyword_order_amended (s : String) :
    detect_category_from_filename s = detect_by_rules s ∧
    (anyKeyword beginner_words (pyLowerC s.data) = true →
      detect_category_from_filename s = "beginner") := by
  constructor
  · unfold detect_category_from_filename detect_by_rules keyword_rules
    cases hb : anyKeyword beginner_words (pyLowerC s.data) <;>
      cases ha : anyKeyword advanced_words (pyLowerC s.data) <;>
        cases hi : anyKeyword intermediate_words (pyLowerC s.data) <;>
          simp [List.find?, hb, ha, hi]
  · intro h
    unfold detect_category_from_filename
    simp [h]

/-- C1 (witness for the amended theorem): instantiated at "basic-deep". -/
theorem detect_keyword_order_amended_w :
    anyKeyword beginner_words (pyLowerC "basic-deep".data) = true ∧
    detect_category_from_filename "basic-deep" = "beginner" :=
  ⟨by decide, (detect_keyword_order_amended "basic-deep").2 (by decide)⟩

/-- C3 (counterexample): for a category outside the three known ones, the
chapters function returns the advanced table, not the beginner table. -/
theorem tables_fallback_cex :
    generate_chapters "Topic" "mystery" ≠ generate_chapters "Topic" "beginner" ∧
    generate_chapters "Topic" "mystery" = generate_chapters "Topic" "advanced" := by
  refine ⟨by decide, by decide⟩

/-- C3 (amended): for a category outside beginner / intermediate / advanced,
the objectives and prerequisites lookups return the beginner table value,
while the chapters if/elif/else chain falls through to the advanced table. -/
theorem tables_fallback_amended (title category : String) (h : category ∉ categories) :
    generate_learning_objectives title category = generate_learning_objectives title "beginner" ∧
    generate_prerequisites category = generate_prerequisites "beginner" ∧
    generate_chapters title category = generate_chapters title "advanced" := by
  simp only [categories, List.mem_cons, List.not_mem_nil, or_false, not_or] at h
  obtain ⟨h1, h2, h3⟩ := h
  refine ⟨?_, ?_, ?_⟩ <;>
    simp [generate_learning_objectives, generate_prerequisites, generate_chapters, h1, h2, h3]

/-- C3 (witness for the amended theorem): instantiated at category "mystery". -/
theorem tables_fallback_amended_w :
    "mystery" ∉ categories ∧
    generate_chapters "Topic" "mystery" = generate_chapters "Topic" "advanced" :=
  ⟨by decide, (tables_fallback_amended "Topic" "mystery" (by decide)).2.2⟩

/-- C5: the duration estimate equals the clamp of size-div-MiB times eight to
the band 300..7200, is always inside that band, is 300 at size zero, is 7200
at 900 MiB, and is monotone in the size. -/
theorem estimate_duration_spec (m n : Nat) (h : m ≤ n) :
    estimate_duration m = max 300 (min 7200 (m / 1048576 * 8)) ∧
    300 ≤ estimate_duration m ∧
    estimate_duration m ≤ 7200 ∧
    estimate_duration 0 = 300 ∧
    estimate_duration (900 * 1024 * 1024) = 7200 ∧
    estimate_duration m ≤ estimate_duration n := by
  refine ⟨rfl, le_max_left _ _, ?_, by decide, by decide, ?_⟩
  · exact max_le (by norm_num) (min_le_left _ _)
  · unfold estimate_duration
    gcongr

/-- C5 (witness): monotonicity instantiated at 5 and 10. -/
theorem estimate_duration_spec_w :
    (5 : Nat) ≤ 10 ∧ estimate_duration 5 ≤ estimate_duration 10 :=
  ⟨by decide, (estimate_duration_spec 5 10 (by decide)).2.2.2.2.2⟩

/-- C8: the title cleanup pipeline agrees everywhere with the specification
wording (strip category word, collapse separator runs to spaces, delete
digits, capitalize tokens, fall back to "Training Video"), and the two spec
examples hold. -/
theorem clean_filename_matches_spec :
    (∀ s : String, clean_filename_for_title s = titleFromName_spec s) ∧
    clean_filename_for_title "deep-dive" = "Deep Dive" ∧
    clean_filename_for_title "" = "Training Video" := by
  refine ⟨?_, by decide, by decide⟩
  intro s
  have hc : ∀ t, collapseSepsAux false t = replaceSepRuns t :=
    fun t => (collapseSepsAux_eq_replaceSepRuns t).1
  simp only [clean_filename_for_title, titleFromName_spec, collapseSeps,
    stripCategoryWord_eq_spec, hc]

/-- C9: a failed listing call makes the inventory come back empty, the same
value a successful listing of an empty container produces. -/
theorem list_videos_error_swallowed (g : Gen) (e : String) :
    list_existing_videos g (Except.error e) = [] ∧
    list_existing_videos g (Except.error e) = list_existing_videos g (Except.ok []) :=
  ⟨rfl, rfl⟩

lemma string_eq_of_data {a b : String} (h : a.data = b.data) : a = b := by
  cases a
  cases b
  exact congrArg String.mk h

lemma isPre_head {c d : Char} {cs ds l : List Char} (h1 : isPre (c :: cs) l = true)
    (h2 : isPre (d :: ds) l = true) : c = d := by
  cases l with
  | nil => simp [isPre] at h1
  | cons x xs =>
    simp [isPre] at h1 h2
    exact h1.1.trans h2.1.symm

lemma not_isPre_of_head_ne {c d : Char} {cs ds l : List Char} (h : isPre (c :: cs) l = true)
    (hne : d ≠ c) : isPre (d :: ds) l = false := by
  cases hx : isPre (d :: ds) l
  · rfl
  · exact absurd (isPre_head hx h) hne

lemma detect_mem (s : String) : detect_category_from_filename s ∈ categories := by
  simp only [detect_category_from_filename]
  split
  · decide
  · split
    · decide
    · split
      · decide
      · decide

lemma parse_category_mem (s : String) : (parse_video_info s).1 ∈ categories := by
  simp only [parse_video_info]
  split
  · next h => exact h.2.2
  · split
    · next cat heq => exact List.mem_of_find?_eq_some heq
    · exact detect_mem _

lemma cat_dash_inj {c1 c2 s t : String} (h1 : c1 ∈ categories) (h2 : c2 ∈ categories)
    (h : c1 ++ "-" ++ s = c2 ++ "-" ++ t) : c1 = c2 ∧ s = t := by
  have e1 : c1 = "beginner" ∨ c1 = "intermediate" ∨ c1 = "advanced" := by
    simpa [categories] using h1
  have e2 : c2 = "beginner" ∨ c2 = "intermediate" ∨ c2 = "advanced" := by
    simpa [categories] using h2
  have hd := congrArg String.data h
  rw [string_data_append, string_data_append, string_data_append, string_data_append] at hd
  rcases e1 with rfl | rfl | rfl <;> rcases e2 with rfl | rfl | rfl <;>
    simp only [show ("beginner".data : List Char) = ['b','e','g','i','n','n','e','r'] from rfl,
      show ("intermediate".data : List Char) =
        ['i','n','t','e','r','m','e','d','i','a','t','e'] from rfl,
      show ("advanced".data : List Char) = ['a','d','v','a','n','c','e','d'] from rfl,
      show ("-".data : List Char) = ['-'] from rfl,
      List.cons_append, List.nil_append] at hd <;>
    simp_all <;>
    exact string_eq_of_data hd

lemma cats_excl (fl : List Char) :
    (isPre ("beginner" ++ "-").data fl = true → isPre ("intermediate" ++ "-").data fl = false) ∧
    (isPre ("beginner" ++ "-").data fl = true → isPre ("advanced" ++ "-").data fl = false) ∧
    (isPre ("intermediate" ++ "-").data fl = true → isPre ("advanced" ++ "-").data fl = false) := by
  refine ⟨fun h => ?_, fun h => ?_, fun h => ?_⟩
  · exact not_isPre_of_head_ne (show isPre ('b' :: "eginner-".data) fl = true from h) (by decide)
  · exact not_isPre_of_head_ne (show isPre ('b' :: "eginner-".data) fl = true from h) (by decide)
  · exact not_isPre_of_head_ne (show isPre ('i' :: "ntermediate-".data) fl = true from h) (by decide)

lemma find_cat_of_isPre {fl : List Char} {cat : String} (hmem : cat ∈ categories)
    (hp : isPre (cat ++ "-").data fl = true) :
    categories.find? (fun c => isPre (c ++ "-").data fl) = some cat := by
  have ecat : cat = "beginner" ∨ cat = "intermediate" ∨ cat = "advanced" := by
    simpa [categories] using hmem
  cases hB : isPre ("beginner" ++ "-").data fl <;>
    cases hI : isPre ("intermediate" ++ "-").data fl <;>
      cases hA : isPre ("advanced" ++ "-").data fl <;>
        rcases ecat with rfl | rfl | rfl <;>
          simp only [categories, List.find?, hB, hI, hA] <;>
          first
            | rfl
            | exact absurd hp (by simp only [Bool.not_eq_true]; exact hB)
            | exact absurd hp (by simp only [Bool.not_eq_true]; exact hI)
            | exact absurd hp (by simp only [Bool.not_eq_true]; exact hA)
            | exact absurd hI (by simp only [Bool.not_eq_true]; exact (cats_excl fl).1 hB)
            | exact absurd hA (by simp only [Bool.not_eq_true]; exact (cats_excl fl).2.1 hB)
            | exact absurd hA (by simp only [Bool.not_eq_true]; exact (cats_excl fl).2.2 hI)

lemma splitSlash_len {l : List Char} (h : '/' ∈ l) : 2 ≤ (splitSlash l).length := by
  induction l with
  | nil => simp at h
  | cons c rest ih =>
    by_cases hc : c = '/'
    · subst hc
      simp [splitSlash, splitSlashP]
    · have h' : '/' ∈ rest := by
        rcases List.mem_cons.mp h with h0 | h0
        · exact absurd h0.symm hc
        · exact h0
      have hlen := ih h'
      simp only [splitSlash, splitSlashP, List.length_cons] at hlen ⊢
      rw [if_neg hc]
      simp at hlen ⊢
      omega

lemma video_id_eq (v : Video) :
    (create_metadata v).video_id =
      v.category ++ "-" ++ pyReplaceChar (pyReplaceChar (pyLower v.clean_name) ' ' '-') '_' '-' :=
  rfl

lemma inventory_mem (g : Gen) (bs : List Blob) (v : Video) :
    v ∈ inventory g bs ↔
      ∃ b ∈ bs, pyStartsWith b.name "metadata/" = false ∧
        pyLower (pathSuffix b.name) ∈ video_extensions ∧ v = mkVideoInfo g b := by
  induction bs with
  | nil => simp [inventory]
  | cons b rest ih =>
    cases hm : pyStartsWith b.name "metadata/"
    · by_cases hs : pyLower (pathSuffix b.name) ∈ video_extensions
      · simp [inventory, hm, hs, ih]
      · simp [inventory, hm, hs, ih]
    · simp [inventory, hm, ih]

/-! Claim theorems: C4, C6, C7. -/

/-- C4 (counterexample): the distinct storage paths "beginner/x.mp4" and
"beginner-x.mp4" both synthesize the id "beginner-x", so ids are not unique
across distinct inventoried paths within one run. -/
theorem video_id_unique_cex :
    ("beginner/x.mp4" : String) ≠ "beginner-x.mp4" ∧
    (create_metadata (mkVideoInfo ⟨"acct", "cont"⟩ ⟨"beginner/x.mp4", 1, none⟩)).video_id =
      (create_metadata (mkVideoInfo ⟨"acct", "cont"⟩ ⟨"beginner-x.mp4", 2, none⟩)).video_id := by
  refine ⟨by decide, by decide⟩

/-- C4 (amended): the id is category, dash, slugified clean name; two
synthesized records share an id exactly when their entries have the same
category and the same slugified clean name, which distinct paths can
produce. -/
theorem video_id_unique_amended (g : Gen) (b1 b2 : Blob) :
    (create_metadata (mkVideoInfo g b1)).video_id =
        (create_metadata (mkVideoInfo g b2)).video_id ↔
      ((mkVideoInfo g b1).category = (mkVideoInfo g b2).category ∧
        pyReplaceChar (pyReplaceChar (pyLower (mkVideoInfo g b1).clean_name) ' ' '-') '_' '-' =
          pyReplaceChar (pyReplaceChar (pyLower (mkVideoInfo g b2).clean_name) ' ' '-') '_' '-') := by
  constructor
  · intro h
    rw [video_id_eq, video_id_eq] at h
    exact cat_dash_inj
      (show (mkVideoInfo g b1).category ∈ categories from parse_category_mem b1.name)
      (show (mkVideoInfo g b2).category ∈ categories from parse_category_mem b2.name) h
  · rintro ⟨h1, h2⟩
    rw [video_id_eq, video_id_eq, h1, h2]

/-- C6: classification applies its three rules in strict priority order:
category folder first, then category-dash prefix in the order beginner,
intermediate, advanced, and keyword detection only when both fail. -/
theorem parse_priority (s : String) :
    (('/' ∈ s.data ∧ pyLower ⟨(splitSlash s.data).headD []⟩ ∈ categories) →
      parse_video_info s =
        (pyLower ⟨(splitSlash s.data).headD []⟩, pathStem ⟨(splitSlash s.data).getLastD []⟩)) ∧
    (∀ cat ∈ categories,
      ¬('/' ∈ s.data ∧ pyLower ⟨(splitSlash s.data).headD []⟩ ∈ categories) →
      isPre (cat ++ "-").data (pyLowerC (pathStem s).data) = true →
      parse_video_info s = (cat, ⟨(pathStem s).data.drop (cat.length + 1)⟩)) ∧
    (¬('/' ∈ s.data ∧ pyLower ⟨(splitSlash s.data).headD []⟩ ∈ categories) →
      (∀ cat ∈ categories, isPre (cat ++ "-").data (pyLowerC (pathStem s).data) = false) →
      parse_video_info s = (detect_category_from_filename (pathStem s), pathStem s)) := by
  refine ⟨?_, ?_, ?_⟩
  · rintro ⟨h1, h3⟩
    have h2 := splitSlash_len h1
    simp only [parse_video_info]
    rw [if_pos ⟨h1, h2, h3⟩]
  · intro cat hmem hnot hpre
    simp only [parse_video_info]
    rw [if_neg (fun hc => hnot ⟨hc.1, hc.2.2⟩), find_cat_of_isPre hmem hpre]
  · intro hnot hnone
    simp only [parse_video_info]
    rw [if_neg (fun hc => hnot ⟨hc.1, hc.2.2⟩),
      List.find?_eq_none.mpr
        (fun cat hcat => by simp only [Bool.not_eq_true]; exact hnone cat hcat)]

/-- C6 (witness): the folder rule instantiated at "Beginner/Intro.mp4". -/
theorem parse_priority_w : parse_video_info "Beginner/Intro.mp4" = ("beginner", "Intro") :=
  ((parse_priority "Beginner/Intro.mp4").1 ⟨by decide, by decide⟩).trans (by decide)

/-- C7: a listed blob enters the inventory exactly when its name is not under
the metadata namespace and its lowercased pathlib extension is one of the
seven video extensions; nothing else ever becomes a video entry. -/
theorem inventory_filter_claim (g : Gen) (bs : List Blob) (v : Video) :
    v ∈ list_existing_videos g (Except.ok bs) ↔
      ∃ b ∈ bs, pyStartsWith b.name "metadata/" = false ∧
        pyLower (pathSuffix b.name) ∈ video_extensions ∧ v = mkVideoInfo g b :=
  inventory_mem g bs v

lemma upload_blob_names_mono (store : List Blob) (k : String) (md : Metadata) (n : String)
    (h : n ∈ store.map Blob.name) : n ∈ (upload_blob store k md).map Blob.name := by
  unfold upload_blob
  split
  · rw [List.map_map]
    have e : (Blob.name ∘ fun b => if b.name = k then (⟨k, 0, some md⟩ : Blob) else b) =
        fun b : Blob => b.name := by
      funext b
      by_cases hb : b.name = k <;> simp [Function.comp, hb]
    rw [e]
    exact h
  · rw [List.map_append]
    exact List.mem_append_left _ h

lemma upload_blob_key_mem (store : List Blob) (k : String) (md : Metadata) :
    k ∈ (upload_blob store k md).map Blob.name := by
  unfold upload_blob
  split
  · next hex =>
    obtain ⟨b, hb, hbk⟩ := hex
    rw [List.map_map]
    refine List.mem_map.mpr ⟨b, hb, ?_⟩
    simp [Function.comp, hbk]
  · rw [List.map_append]
    exact List.mem_append_right _ (by simp)

lemma batch_loop_names_mono (ex : List String) (f : Bool) :
    ∀ (vids : List Video) (acc : RunResult) (n : String),
      n ∈ acc.store.map Blob.name → n ∈ (batch_loop ex f acc vids).store.map Blob.name := by
  intro vids
  induction vids with
  | nil => intro acc n h; simpa [batch_loop] using h
  | cons v rest ih =>
    intro acc n h
    unfold batch_loop
    split
    · exact ih _ _ h
    · exact ih _ _ (upload_blob_names_mono _ _ _ _ h)

lemma batch_loop_key_mem (ex : List String) (f : Bool) :
    ∀ (vids : List Video) (acc : RunResult) (v : Video), v ∈ vids →
      (v.clean_name ∈ ex ∧ f = false) ∨
        ("metadata/" ++ v.clean_name ++ ".json") ∈ (batch_loop ex f acc vids).store.map Blob.name := by
  intro vids
  induction vids with
  | nil => intro acc v hv; simp at hv
  | cons u rest ih =>
    intro acc v hv
    rcases List.mem_cons.mp hv with rfl | hv'
    · unfold batch_loop
      split
      · next hc => exact Or.inl hc
      · exact Or.inr (batch_loop_names_mono _ _ _ _ _ (upload_blob_key_mem _ _ _))
    · unfold batch_loop
      split
      · exact ih _ v hv'
      · exact ih _ v hv'

lemma batch_loop_skip_all (ex : List String) :
    ∀ (vids : List Video) (acc : RunResult), (∀ v ∈ vids, v.clean_name ∈ ex) →
      batch_loop ex false acc vids = { acc with skipped := acc.skipped + vids.length } := by
  intro vids
  induction vids with
  | nil => intro acc _; simp [batch_loop]
  | cons v rest ih =>
    intro acc h
    unfold batch_loop
    rw [if_pos ⟨h v (by simp), rfl⟩, ih _ (fun u hu => h u (by simp [hu]))]
    cases acc
    simp [List.length_cons]
    omega

lemma batch_loop_gen_all (ex : List String) (f : Bool) :
    ∀ (vids : List Video) (acc : RunResult), (∀ v ∈ vids, v.clean_name ∉ ex) →
      (batch_loop ex f acc vids).generated = acc.generated + vids.length ∧
      (batch_loop ex f acc vids).skipped = acc.skipped := by
  intro vids
  induction vids with
  | nil => intro acc _; simp [batch_loop]
  | cons v rest ih =>
    intro acc h
    unfold batch_loop
    rw [if_neg (fun hc => h v (by simp) hc.1)]
    have hr := ih
      { acc with
        store := upload_blob acc.store ("metadata/" ++ v.clean_name ++ ".json") (create_metadata v)
        generated := acc.generated + 1 }
      (fun u hu => h u (by simp [hu]))
    refine ⟨?_, ?_⟩ <;> simp only [hr.1, hr.2] <;> simp <;> omega

lemma inventory_append (g : Gen) : ∀ (a b : List Blob),
    inventory g (a ++ b) = inventory g a ++ inventory g b := by
  intro a b
  induction a with
  | nil => simp [inventory]
  | cons x rest ih =>
    cases hm : pyStartsWith x.name "metadata/"
    · by_cases hs : pyLower (pathSuffix x.name) ∈ video_extensions <;>
        simp [inventory, hm, hs, ih]
    · simp [inventory, hm, ih]

lemma inventory_map_replace (g : Gen) (k : String) (md : Metadata)
    (hk : pyStartsWith k "metadata/" = true) :
    ∀ (store : List Blob),
      inventory g (store.map (fun b => if b.name = k then (⟨k, 0, some md⟩ : Blob) else b)) =
        inventory g store := by
  intro store
  induction store with
  | nil => simp
  | cons b rest ih =>
    by_cases hb : b.name = k
    · have hbk : pyStartsWith b.name "metadata/" = true := by rw [hb]; exact hk
      simp [List.map_cons, hb, inventory, hk, hbk, ih]
    · simp only [List.map_cons, if_neg hb]
      cases hm : pyStartsWith b.name "metadata/"
      · by_cases hs : pyLower (pathSuffix b.name) ∈ video_extensions <;>
          simp [inventory, hm, hs, ih]
      · simp [inventory, hm, ih]

lemma upload_blob_inventory (g : Gen) (store : List Blob) (k : String) (md : Metadata)
    (hk : pyStartsWith k "metadata/" = true) :
    inventory g (upload_blob store k md) = inventory g store := by
  unfold upload_blob
  split
  · exact inventory_map_replace g k md hk store
  · rw [inventory_append]
    simp [inventory, hk]

lemma isPre_append_self : ∀ (p t : List Char), isPre p (p ++ t) = true := by
  intro p t
  induction p with
  | nil => rfl
  | cons c cs ih => simp [isPre, ih]

lemma key_startsWith (cn : String) :
    pyStartsWith ("metadata/" ++ cn ++ ".json") "metadata/" = true := by
  unfold pyStartsWith
  rw [string_data_append, string_data_append, List.append_assoc]
  exact isPre_append_self _ _

lemma batch_loop_inventory (g : Gen) (ex : List String) (f : Bool) :
    ∀ (vids : List Video) (acc : RunResult),
      inventory g (batch_loop ex f acc vids).store = inventory g acc.store := by
  intro vids
  induction vids with
  | nil => intro acc; simp [batch_loop]
  | cons v rest ih =>
    intro acc
    unfold batch_loop
    split
    · exact ih _
    · exact (ih _).trans (upload_blob_inventory g _ _ _ (key_startsWith v.clean_name))

lemma lastDotPos_append (a b : List Char) (i : Nat) (h : lastDotPos b = some i) :
    lastDotPos (a ++ b) = some (a.length + i) := by
  induction a with
  | nil => simpa using h
  | cons c r ih =>
    have e : lastDotPos ((c :: r) ++ b) =
        match lastDotPos (r ++ b) with
        | some i => some (i + 1)
        | none => if c = '.' then some 0 else none := rfl
    rw [e, ih]
    show some (r.length + i + 1) = some ((c :: r).length + i)
    rw [List.length_cons]
    exact congrArg some (by omega)

lemma splitSlashP_no_slash (l : List Char) (h : '/' ∉ l) : splitSlashP l = (l, []) := by
  induction l with
  | nil => rfl
  | cons c r ih =>
    have hc : c ≠ '/' := fun e => h (by simp [e])
    have hr : '/' ∉ r := fun e => h (by simp [e])
    simp [splitSlashP, hc, ih hr]

lemma splitSlashP_append (a rest : List Char) (h : '/' ∉ a) :
    splitSlashP (a ++ rest) = (a ++ (splitSlashP rest).1, (splitSlashP rest).2) := by
  induction a with
  | nil => simp
  | cons c r ih =>
    have hc : c ≠ '/' := fun e => h (by simp [e])
    have hr : '/' ∉ r := fun e => h (by simp [e])
    simp [splitSlashP, hc, ih hr]

lemma key_data (cn : String) :
    ("metadata/" ++ cn ++ ".json").data =
      "metadata".data ++ '/' :: (cn.data ++ ".json".data) := by
  rw [string_data_append, string_data_append,
    show ("metadata/".data : List Char) = "metadata".data ++ ['/'] from rfl]
  simp

lemma key_pathName (cn : String) (h0 : cn.data ≠ []) (hs : '/' ∉ cn.data) :
    pathNameC ("metadata/" ++ cn ++ ".json").data = cn.data ++ ".json".data := by
  rw [key_data]
  have hz : '/' ∉ cn.data ++ ".json".data := by
    intro hmem
    rcases List.mem_append.mp hmem with h1 | h1
    · exact hs h1
    · exact absurd h1 (by decide)
  have e1 : splitSlashP (cn.data ++ ".json".data) = (cn.data ++ ".json".data, []) :=
    splitSlashP_no_slash _ hz
  have e2 : splitSlashP ('/' :: (cn.data ++ ".json".data)) =
      ([], [cn.data ++ ".json".data]) := by
    simp [splitSlashP, e1]
  have hz1 : cn.data ++ ".json".data ≠ [] := by
    intro h
    have := congrArg List.length h
    simp at this
  have hz2 : cn.data ++ ".json".data ≠ ['.'] := by
    intro h
    have := congrArg List.length h
    simp at this
  unfold pathNameC pathComponentsC splitSlash
  rw [splitSlashP_append "metadata".data _ (by decide), e2]
  simp [hz1, hz2]

lemma string_ne_empty_data {cn : String} (h0 : cn ≠ "") : cn.data ≠ [] :=
  fun h => h0 (string_eq_of_data h)

lemma key_stem (cn : String) (h0 : cn ≠ "") (hs : '/' ∉ cn.data) :
    pathStem ("metadata/" ++ cn ++ ".json") = cn := by
  have h0' : cn.data ≠ [] := string_ne_empty_data h0
  have hld : lastDotPos (cn.data ++ ".json".data) = some cn.data.length := by
    simpa using lastDotPos_append cn.data ".json".data 0 (by decide)
  have hcond : 0 < cn.data.length ∧
      cn.data.length + 1 < (cn.data ++ ".json".data).length := by
    refine ⟨List.length_pos.mpr h0', ?_⟩
    rw [List.length_append, show (".json".data).length = 5 from rfl]
    omega
  have hstem : stemName (cn.data ++ ".json".data) = cn.data := by
    unfold stemName
    rw [hld]
    show (if 0 < cn.data.length ∧ cn.data.length + 1 < (cn.data ++ ".json".data).length then
        (cn.data ++ ".json".data).take cn.data.length
      else cn.data ++ ".json".data) = cn.data
    rw [if_pos hcond, List.take_left]
  unfold pathStem
  rw [key_pathName cn h0' hs, hstem]

lemma key_endsWith (cn : String) :
    pyEndsWith ("metadata/" ++ cn ++ ".json") ".json" = true := by
  unfold pyEndsWith
  rw [string_data_append, string_data_append, List.reverse_append]
  exact isPre_append_self _ _

lemma splitSlashP_no_slash_out (l : List Char) :
    '/' ∉ (splitSlashP l).1 ∧ ∀ gp ∈ (splitSlashP l).2, '/' ∉ gp := by
  induction l with
  | nil => simp [splitSlashP]
  | cons c r ih =>
    by_cases hc : c = '/'
    · subst hc
      refine ⟨by simp [splitSlashP], ?_⟩
      intro gp hgp
      simp only [splitSlashP, if_pos rfl] at hgp
      rcases List.mem_cons.mp hgp with rfl | h
      · exact ih.1
      · exact ih.2 gp h
    · refine ⟨?_, ?_⟩
      · intro hmem
        simp only [splitSlashP, if_neg hc] at hmem
        rcases List.mem_cons.mp hmem with h | h
        · exact hc h.symm
        · exact ih.1 h
      · intro gp hgp
        simp only [splitSlashP, if_neg hc] at hgp
        exact ih.2 gp hgp

lemma getLastD_mem_cons {α : Type} (x : α) (xs : List α) (d : α) :
    (x :: xs).getLastD d ∈ x :: xs := by
  induction xs generalizing x with
  | nil => simp [List.getLastD]
  | cons y ys ih =>
    rw [List.getLastD_cons]
    exact List.mem_cons_of_mem x (ih y)

lemma pathNameC_no_slash (l : List Char) : '/' ∉ pathNameC l := by
  unfold pathNameC
  cases h : pathComponentsC l with
  | nil => simp
  | cons x xs =>
    have hmem : (x :: xs).getLastD [] ∈ pathComponentsC l := by
      rw [h]
      exact getLastD_mem_cons x xs []
    have hsp : (x :: xs).getLastD [] ∈ splitSlash l :=
      (List.mem_filter.mp hmem).1
    unfold splitSlash at hsp
    rcases List.mem_cons.mp hsp with heq | htl
    · rw [heq]
      exact (splitSlashP_no_slash_out l).1
    · exact (splitSlashP_no_slash_out l).2 _ htl

lemma stemName_subset {n : List Char} : ∀ c ∈ stemName n, c ∈ n := by
  intro c hc
  unfold stemName at hc
  split at hc
  · split at hc
    · exact List.take_subset _ _ hc
    · exact hc
  · exact hc

lemma parse_clean_no_slash (s : String) : '/' ∉ (parse_video_info s).2.data := by
  simp only [parse_video_info]
  split
  · intro hmem
    exact pathNameC_no_slash _ (stemName_subset _ hmem)
  · split
    · intro hmem
      exact pathNameC_no_slash _ (stemName_subset _ (List.drop_subset _ _ hmem))
    · intro hmem
      exact pathNameC_no_slash _ (stemName_subset _ hmem)

lemma existing_mem_of_name (bs : List Blob) (n cn : String)
    (hmem : n ∈ bs.map Blob.name) (hpre : pyStartsWith n "metadata/" = true)
    (hsuf : pyEndsWith n ".json" = true) (hstem : pathStem n = cn) :
    cn ∈ existing_metadata
      (Except.ok (bs.filter (fun b => pyStartsWith b.name "metadata/"))) := by
  obtain ⟨b, hb, hbn⟩ := List.mem_map.mp hmem
  subst hbn
  unfold existing_metadata
  exact List.mem_map.mpr
    ⟨b, List.mem_filter.mpr ⟨List.mem_filter.mpr ⟨hb, hpre⟩, hsuf⟩, hstem⟩

lemma generate_all_ok (g : Gen) (store bs : List Blob)
    (ml : Except String (List Blob)) (force : Bool) (h : ¬ inventory g bs = []) :
    generate_all_metadata g store (.ok bs) ml force =
      batch_loop (existing_metadata ml) force ⟨store, 0, 0, (inventory g bs).length⟩
        (inventory g bs) := by
  unfold generate_all_metadata
  simp only [list_existing_videos]
  rw [if_neg h]

lemma generate_all_ok_nil (g : Gen) (store bs : List Blob)
    (ml : Except String (List Blob)) (force : Bool) (h : inventory g bs = []) :
    generate_all_metadata g store (.ok bs) ml force = ⟨store, 0, 0, 0⟩ := by
  unfold generate_all_metadata
  simp only [list_existing_videos]
  rw [if_pos h]

/-! Claim theorems: C2, C10. -/

/-- C2 (counterexample): with the single video "beginner-.mp4" (whose clean
name is empty, published as "metadata/.json" with pathlib stem ".json"), the
second force-false batch run does not skip the video: it publishes again
(generated 1, skipped 0), refuting "for every inventoried video ... it is
skipped with no write". -/
theorem run_batch_idempotent_cex :
    (list_existing_videos ⟨"acct", "cont"⟩
        (Except.ok [(⟨"beginner-.mp4", 5, none⟩ : Blob)])).length = 1 ∧
    (run_batch ⟨"acct", "cont"⟩
        (run_batch ⟨"acct", "cont"⟩ [⟨"beginner-.mp4", 5, none⟩] false).store
        false).generated = 1 ∧
    (run_batch ⟨"acct", "cont"⟩
        (run_batch ⟨"acct", "cont"⟩ [⟨"beginner-.mp4", 5, none⟩] false).store
        false).skipped = 0 := by
  refine ⟨by decide, by decide, by decide⟩

/-- C2 (amended): provided every inventoried video has a non-empty clean name,
a second force-false batch run leaves the store exactly as after the first
run, publishes zero new objects, and skips every video (skipped equals
total). -/
theorem run_batch_idempotent_amended (g : Gen) (s : List Blob)
    (hne : ∀ v ∈ list_existing_videos g (Except.ok s), v.clean_name ≠ "") :
    (run_batch g (run_batch g s false).store false).store = (run_batch g s false).store ∧
    (run_batch g (run_batch g s false).store false).generated = 0 ∧
    (run_batch g (run_batch g s false).store false).skipped =
      (run_batch g (run_batch g s false).store false).total := by
  by_cases hv : inventory g s = []
  · have h1 : run_batch g s false = ⟨s, 0, 0, 0⟩ := generate_all_ok_nil g s s _ false hv
    have hstore : (run_batch g s false).store = s := by rw [h1]
    rw [hstore]
    refine ⟨hstore, ?_, ?_⟩ <;> rw [h1]
  · have h1 : run_batch g s false =
        batch_loop
          (existing_metadata (.ok (s.filter (fun b => pyStartsWith b.name "metadata/"))))
          false ⟨s, 0, 0, (inventory g s).length⟩ (inventory g s) :=
      generate_all_ok g s s _ false hv
    have hinv : inventory g (run_batch g s false).store = inventory g s := by
      rw [h1]
      exact batch_loop_inventory g _ _ _ _
    have hall : ∀ v ∈ inventory g s, v.clean_name ∈
        existing_metadata (.ok ((run_batch g s false).store.filter
          (fun b => pyStartsWith b.name "metadata/"))) := by
      intro v hv'
      obtain ⟨b, hb, hb1, hb2, hveq⟩ := (inventory_mem g s v).mp hv'
      have hnoslash : '/' ∉ v.clean_name.data := by
        rw [hveq]
        exact parse_clean_no_slash b.name
      have hcn : v.clean_name ≠ "" := hne v hv'
      rcases batch_loop_key_mem
          (existing_metadata (.ok (s.filter (fun b => pyStartsWith b.name "metadata/"))))
          false (inventory g s) ⟨s, 0, 0, (inventory g s).length⟩ v hv' with ⟨hskip, _⟩ | hkey
      · unfold existing_metadata at hskip
        obtain ⟨b', hbf, hstem⟩ := List.mem_map.mp hskip
        obtain ⟨hbf1, hsuf⟩ := List.mem_filter.mp hbf
        obtain ⟨hbs, hpre⟩ := List.mem_filter.mp hbf1
        have hn : b'.name ∈ (run_batch g s false).store.map Blob.name := by
          rw [h1]
          exact batch_loop_names_mono _ _ _ _ _ (List.mem_map.mpr ⟨b', hbs, rfl⟩)
        exact existing_mem_of_name _ _ _ hn hpre hsuf hstem
      · have hn : ("metadata/" ++ v.clean_name ++ ".json") ∈
            (run_batch g s false).store.map Blob.name := by
          rw [h1]
          exact hkey
        exact existing_mem_of_name _ _ _ hn (key_startsWith _) (key_endsWith _)
          (key_stem _ hcn hnoslash)
    have hv2 : ¬ inventory g (run_batch g s false).store = [] := by
      rw [hinv]
      exact hv
    have h2 : run_batch g (run_batch g s false).store false =
        batch_loop
          (existing_metadata (.ok ((run_batch g s false).store.filter
            (fun b => pyStartsWith b.name "metadata/")))) false
          ⟨(run_batch g s false).store, 0, 0,
            (inventory g (run_batch g s false).store).length⟩
          (inventory g (run_batch g s false).store) :=
      generate_all_ok g _ _ _ false hv2
    rw [h2, hinv,
      batch_loop_skip_all _ (inventory g s)
        ⟨(run_batch g s false).store, 0, 0, (inventory g s).length⟩ hall]
    exact ⟨rfl, rfl, by simp⟩

/-- C2 (witness for the amended theorem): instantiated at a one-video store
whose clean name "intro" is non-empty. -/
theorem run_batch_idempotent_amended_w :
    (run_batch ⟨"acct", "cont"⟩
        (run_batch ⟨"acct", "cont"⟩ [⟨"intro.mp4", 1, none⟩] false).store false).store =
      (run_batch ⟨"acct", "cont"⟩ [⟨"intro.mp4", 1, none⟩] false).store ∧
    (run_batch ⟨"acct", "cont"⟩
        (run_batch ⟨"acct", "cont"⟩ [⟨"intro.mp4", 1, none⟩] false).store false).generated = 0 ∧
    (run_batch ⟨"acct", "cont"⟩
        (run_batch ⟨"acct", "cont"⟩ [⟨"intro.mp4", 1, none⟩] false).store false).skipped =
      (run_batch ⟨"acct", "cont"⟩
        (run_batch ⟨"acct", "cont"⟩ [⟨"intro.mp4", 1, none⟩] false).store false).total :=
  run_batch_idempotent_amended ⟨"acct", "cont"⟩ [⟨"intro.mp4", 1, none⟩] (by decide)

/-- C10: when the metadata enumeration raises, the run behaves exactly as if
the existing-metadata set were empty: nothing is skipped, every inventoried
video is synthesized and published, and the metadata object of every video is
present in the final store. -/
theorem meta_listing_failure (g : Gen) (s : List Blob) (e : String) :
    generate_all_metadata g s (.ok s) (.error e) false =
      generate_all_metadata g s (.ok s) (.ok []) false ∧
    (generate_all_metadata g s (.ok s) (.error e) false).skipped = 0 ∧
    (generate_all_metadata g s (.ok s) (.error e) false).generated =
      (list_existing_videos g (.ok s)).length ∧
    ∀ v ∈ list_existing_videos g (Except.ok s),
      ("metadata/" ++ v.clean_name ++ ".json") ∈
        (generate_all_metadata g s (.ok s) (.error e) false).store.map Blob.name := by
  refine ⟨rfl, ?_, ?_, ?_⟩
  · by_cases hv : inventory g s = []
    · rw [generate_all_ok_nil g s s _ false hv]
    · rw [generate_all_ok g s s _ false hv]
      exact (batch_loop_gen_all _ false _ _
        (fun v _ => by simp [existing_metadata])).2
  · by_cases hv : inventory g s = []
    · rw [generate_all_ok_nil g s s _ false hv]
      simp [list_existing_videos, hv]
    · rw [generate_all_ok g s s _ false hv]
      rw [(batch_loop_gen_all _ false (inventory g s) ⟨s, 0, 0, (inventory g s).length⟩
        (fun v _ => by simp [existing_metadata])).1]
      simp [list_existing_videos]
  · intro v hv'
    have hv'' : v ∈ inventory g s := hv'
    have hvne : ¬ inventory g s = [] := fun h => by simp [h] at hv''
    rw [generate_all_ok g s s _ false hvne]
    rcases batch_loop_key_mem (existing_metadata (.error e)) false (inventory g s)
        ⟨s, 0, 0, (inventory g s).length⟩ v hv'' with ⟨h, _⟩ | hk
    · simp [existing_metadata] at h
    · exact hk

/-- C10 (witness): instantiated at a one-video store with a failing metadata
listing; the metadata object for "intro.mp4" is published anyway. -/
theorem meta_listing_failure_w :
    ("metadata/intro.json" : String) ∈
      (generate_all_metadata ⟨"acct", "cont"⟩ [⟨"intro.mp4", 1, none⟩]
        (.ok [⟨"intro.mp4", 1, none⟩]) (.error "boom") false).store.map Blob.name := by
  have h := (meta_listing_failure ⟨"acct", "cont"⟩ [⟨"intro.mp4", 1, none⟩] "boom").2.2.2
    (mkVideoInfo ⟨"acct", "cont"⟩ ⟨"intro.mp4", 1, none⟩) (by decide)
  exact h
